import Mathlib

/-!
Verification of the menu-filtering and URL-templating engine of the
`go-to-dashboard` repository: dot-notation path resolution over decoded
JSON records, regex-based condition evaluation, menu-item matching and
filtering, URL template resolution, and configuration validation.

The definitions below are shallow embeddings of the Go source
(`config.go` and the pod-data file).  JSON values decoded by
`encoding/json` are modelled by the inductive `Value`; Go maps
(`map[string]interface{}`) are modelled as association lists; the
regular-expression engine (`regexp`) is modelled by a small regex AST
with a fuelled backtracking matcher and a recursive-descent reading of
the RE2 surface syntax fragment the configuration patterns use.
JSON numbers (Go `float64`) are modelled at their exact values,
restricted to integral values (the only numbers whose textual form the
specification constrains); `stringify`'s number branch keeps Go's
`val == float64(int64(val))` round-trip guard, printing plain decimal
inside the `int64` range and falling back to the `g`-verb
floating-point format outside it.  Non-integral floating-point
formatting is outside the model.
Fallible or panicking Go code (calling `MatchString` on a nil compiled
regex) is modelled with `Option`; in-place mutation through pointers
(`ValidateConfig`) is modelled by explicit state passing.
-/

/-- A decoded JSON value as produced by Go's `encoding/json` into
`interface{}`: strings, numbers, booleans, `null` (untyped nil),
objects (`map[string]interface{}`, modelled as an association list) and
arrays (`[]interface{}`).  A number (Go `float64`) is modelled by its
exact value, restricted to integral values of any magnitude — this
includes the integral values outside the `int64` range on which the
round-trip guard in `stringify` fails; non-integral numbers, whose
textual form no claim constrains, remain outside the model. -/
inductive Value where
  | str : String → Value
  | int : Int → Value
  | bool : Bool → Value
  | null : Value
  | vmap : List (String × Value) → Value
  | arr : List Value → Value

/-- Decimal digits of a natural number, most significant first, with
explicit fuel (the number itself is always enough fuel, since the
argument at least halves each step). -/
def natDigitsAux : Nat → Nat → List Char
  | 0, n => [Char.ofNat (48 + n)]
  | f + 1, n =>
      if n < 10 then [Char.ofNat (48 + n)]
      else natDigitsAux f (n / 10) ++ [Char.ofNat (48 + n % 10)]

/-- Decimal digits of a natural number, most significant first
(model of the digit loop behind `fmt.Sprintf` with the `d` verb). -/
def natDigits (n : Nat) : List Char :=
  natDigitsAux n n

/-- Decimal rendering of an `int64` value as produced by
`fmt.Sprintf` with the `d` verb: optional leading minus, then digits. -/
def intToDecimal (n : Int) : String :=
  if n < 0 then "-" ++ String.mk (natDigits n.natAbs)
  else String.mk (natDigits n.toNat)

/-- Model of the guard `val == float64(int64(val))` of `stringify`'s
number branch, evaluated at an integral `float64` value `n`: inside the
`int64` range the truncating conversion is exact and converting back
recovers the value, so the guard holds; outside the range the
conversion is implementation-dependent (gc/amd64 produces the minimum
`int64`) and the round-trip fails.  The only implementation-disputed
point is `+2^63` itself (arm64's saturating conversion rounds back up
to it); no theorem below evaluates the guard there. -/
def int64RoundTrips (n : Int) : Bool :=
  decide (-(2 ^ 63) ≤ n) && decide (n < 2 ^ 63)

/-- Drop the trailing zero digits of a digit run. -/
def stripTrailingZeros (l : List Char) : List Char :=
  (l.reverse.dropWhile (fun c => c == '0')).reverse

/-- Model of the `g` verb of `fmt` (shortest form) at an integral
`float64` value: plain decimal below `10^6`, otherwise the exponent
form `d.ddd…e+XX` (exponent of at least two digits) built from the
value's exact decimal digits with trailing zeros stripped.  This is
exact for integral values below `2^53` and for powers of ten — the
stripped exact digits are then the shortest digits that round-trip —
which covers every value the theorems below evaluate; above `2^53` the
true shortest digits can be fewer, which nothing here relies on.  The
fuel 400 covers the 309 digits of the largest finite `float64`. -/
def goFmtG (n : Int) : String :=
  if n.natAbs < 1000000 then intToDecimal n
  else
    let ds := natDigitsAux 400 n.natAbs
    let exp := ds.length - 1
    let sigStr :=
      match stripTrailingZeros ds with
      | [] => "0"
      | [d] => String.mk [d]
      | d :: rest => String.mk [d] ++ "." ++ String.mk rest
    (if n < 0 then "-" else "") ++ sigStr ++ "e+" ++
      (if exp < 10 then "0" ++ String.mk (natDigits exp) else String.mk (natDigits exp))

mutual
/-- Model of Go `fmt`'s default (`v` verb) rendering of a decoded JSON
value, used by `stringify`'s default branch for maps and arrays.
`fmt` prints map entries sorted by key; the association list's own order
stands in for that canonical order here. -/
def goV : Value → String
  | .str s => s
  | .int n => goFmtG n
  | .bool b => if b then "true" else "false"
  | .null => "<nil>"
  | .vmap m => "map[" ++ goVEntries m ++ "]"
  | .arr a => "[" ++ goVElems a ++ "]"

def goVEntries : List (String × Value) → String
  | [] => ""
  | [(k, v)] => k ++ ":" ++ goV v
  | (k, v) :: rest => k ++ ":" ++ goV v ++ " " ++ goVEntries rest

def goVElems : List Value → String
  | [] => ""
  | [v] => goV v
  | v :: rest => goV v ++ " " ++ goVElems rest
end

/-- Embeds `stringify` from the pod-data file: a string is itself; a
number is its decimal integer text when the `int64` round-trip guard
`val == float64(int64(val))` holds and the `g`-verb rendering (which
uses exponent form at these magnitudes) when it does not; a boolean is
the literal `true`/`false`; `null` is the empty string; anything else
is Go `fmt`'s default rendering. -/
def stringify : Value → String
  | .str s => s
  | .int n => if int64RoundTrips n then intToDecimal n else goFmtG n
  | .bool b => if b then "true" else "false"
  | .null => ""
  | .vmap m => goV (.vmap m)
  | .arr a => goV (.arr a)

/-! ### Models of the Go standard-library string functions the source uses -/

/-- Split a character list at every occurrence of a separator character.
Always returns at least one (possibly empty) group, like Go's
`strings.Split` with a one-character separator. -/
def splitOnChar (sep : Char) : List Char → List (List Char)
  | [] => [[]]
  | c :: rest =>
      let r := splitOnChar sep rest
      if c = sep then [] :: r
      else
        match r with
        | [] => [[c]]
        | g :: gs => (c :: g) :: gs

/-- Model of `strings.Split(s, ".")`: `""` yields `[""]`, adjacent dots
yield empty segments. -/
def stringsSplitDot (s : String) : List String :=
  (splitOnChar '.' s.data).map String.mk

/-- Model of `strings.HasPrefix`. -/
def goHasPrefix (s pre : String) : Bool := pre.data.isPrefixOf s.data

/-- Model of `strings.HasSuffix`. -/
def goHasSuffix (s suf : String) : Bool := suf.data.isSuffixOf s.data

/-- Worker for `goReplaceAll`, fuelled by the input length: at each
position, a (non-empty) occurrence of the pattern is replaced and
skipped, otherwise one character is copied. -/
def replaceListAux (pat rep : List Char) : Nat → List Char → List Char
  | 0, s => s
  | _ + 1, [] => []
  | f + 1, c :: rest =>
      if !pat.isEmpty && pat.isPrefixOf (c :: rest) then
        rep ++ replaceListAux pat rep f ((c :: rest).drop pat.length)
      else
        c :: replaceListAux pat rep f rest

/-- Model of `strings.ReplaceAll` for a non-empty pattern (the source
only ever replaces the literal `$VALUE`): every non-overlapping
occurrence, scanned left to right, is replaced. -/
def goReplaceAll (s pat rep : String) : String :=
  String.mk (replaceListAux pat.data rep.data s.data.length s.data)

/-! ### Model of the Go `regexp` engine (RE2 fragment)

The configuration patterns use literals, `.`, alternation, grouping,
the postfix repetitions `*`/`+`/`?`, escaped punctuation and the
anchors `^`/`$`.  `Regex` is the abstract syntax of that fragment,
`matchAt` a fuelled backtracking matcher over it (anchors are resolved
against the absolute position in the subject), `MatchString` the
unanchored search `regexp.(*Regexp).MatchString` performs, and
`compileRegex` a recursive-descent reading of the surface syntax with
RE2's precedence (alternation binds weakest, then concatenation, then
postfix repetition); sources outside the fragment (character classes,
counted repetition, class escapes) are not modelled and fail to
compile, as do sources RE2 itself rejects (unbalanced parentheses,
dangling repetition operators, trailing backslash). -/

inductive Regex where
  | emptyStr : Regex
  | lit : Char → Regex
  | dot : Regex
  | startAnchor : Regex
  | endAnchor : Regex
  | cat : Regex → Regex → Regex
  | alt : Regex → Regex → Regex
  | star : Regex → Regex
deriving DecidableEq

/-- Number of AST nodes, used to budget matcher fuel. -/
def Regex.size : Regex → Nat
  | .cat a b => a.size + b.size + 1
  | .alt a b => a.size + b.size + 1
  | .star a => a.size + 1
  | _ => 1

/-- Fuelled continuation-passing matcher: `matchAt r f i s k` asks
whether `r` can match a prefix of `s` (the suffix of the subject
starting at absolute position `i`) and the continuation `k` accept the
remainder.  `^` succeeds only at position 0, `$` only at the end of the
subject, `.` matches any character except newline; `star` only iterates
on strict progress, so the reachable search space is finite and the
fuel chosen in `MatchString` is never exhausted on the inputs used. -/
def matchAt : Regex → Nat → Nat → List Char → (Nat → List Char → Bool) → Bool
  | _, 0, _, _, _ => false
  | .emptyStr, _ + 1, i, s, k => k i s
  | .lit c, _ + 1, i, s, k =>
      match s with
      | [] => false
      | a :: rest => a == c && k (i + 1) rest
  | .dot, _ + 1, i, s, k =>
      match s with
      | [] => false
      | a :: rest => a != '\n' && k (i + 1) rest
  | .startAnchor, _ + 1, i, s, k => i == 0 && k i s
  | .endAnchor, _ + 1, i, s, k => s.isEmpty && k i s
  | .cat r1 r2, f + 1, i, s, k => matchAt r1 f i s (fun j t => matchAt r2 f j t k)
  | .alt r1 r2, f + 1, i, s, k => matchAt r1 f i s k || matchAt r2 f i s k
  | .star r, f + 1, i, s, k =>
      k i s || matchAt r f i s (fun j t => decide (i < j) && matchAt (.star r) f j t k)

/-- Fuel that is ample for the subjects and patterns evaluated here. -/
def matchFuel (r : Regex) (n : Nat) : Nat := (r.size + 2) * (n + 2) * 2

/-- Model of `regexp.(*Regexp).MatchString`: the pattern may match
starting at any position of the subject (unanchored search). -/
def MatchString (r : Regex) (s : String) : Bool :=
  let cs := s.data
  (List.range (cs.length + 1)).any fun i =>
    matchAt r (matchFuel r cs.length) i (cs.drop i) (fun _ _ => true)

/-- Whole-subject matching: the subject, in its entirety, belongs to the
language of the pattern.  This is the "matches the entire candidate
string" notion of the specification's anchoring invariant. -/
def FullMatchString (r : Regex) (s : String) : Bool :=
  matchAt r (matchFuel r s.data.length) 0 s.data (fun _ t => t.isEmpty)

/-- Does the input begin with a repetition operator?  RE2 rejects a
repetition applied to a repetition (`a**`) and a leading operator. -/
def leadsWithRepOp : List Char → Bool
  | '*' :: _ => true
  | '+' :: _ => true
  | '?' :: _ => true
  | _ => false

mutual
/-- Alternation level of the pattern grammar: `cat ('|' cat)*`. -/
def parseAlt : Nat → List Char → Option (Regex × List Char)
  | 0, _ => none
  | f + 1, l => do
      let (r, rest) ← parseCat f l
      match rest with
      | '|' :: rest2 => do
          let (r2, rest3) ← parseAlt f rest2
          pure (.alt r r2, rest3)
      | _ => pure (r, rest)

/-- Concatenation level: a (possibly empty) run of repeated atoms,
stopping at `|`, `)` or the end of the input. -/
def parseCat : Nat → List Char → Option (Regex × List Char)
  | 0, _ => none
  | f + 1, l =>
      match l with
      | [] => pure (.emptyStr, [])
      | '|' :: _ => pure (.emptyStr, l)
      | ')' :: _ => pure (.emptyStr, l)
      | _ => do
          let (r, rest) ← parseRep f l
          let (r2, rest2) ← parseCat f rest
          pure (.cat r r2, rest2)

/-- Repetition level: an atom followed by at most one `*`, `+` or `?`
(`+` and `?` are expressed through concatenation and alternation). -/
def parseRep : Nat → List Char → Option (Regex × List Char)
  | 0, _ => none
  | f + 1, l => do
      let (r, rest) ← parseAtom f l
      match rest with
      | '*' :: rest2 =>
          if leadsWithRepOp rest2 then none else pure (.star r, rest2)
      | '+' :: rest2 =>
          if leadsWithRepOp rest2 then none else pure (.cat r (.star r), rest2)
      | '?' :: rest2 =>
          if leadsWithRepOp rest2 then none else pure (.alt r .emptyStr, rest2)
      | _ => pure (r, rest)

/-- Atom level: literal characters, `.`, the anchors, a parenthesised
group, or an escaped punctuation character.  Character classes (`[`),
counted repetition (braces) and alphanumeric escapes are outside the
modelled fragment; dangling operators and unbalanced parentheses are
rejected exactly as RE2 rejects them. -/
def parseAtom : Nat → List Char → Option (Regex × List Char)
  | 0, _ => none
  | f + 1, l =>
      match l with
      | [] => none
      | '(' :: rest => do
          let (r, rest2) ← parseAlt f rest
          match rest2 with
          | ')' :: rest3 => pure (r, rest3)
          | _ => none
      | ')' :: _ => none
      | '|' :: _ => none
      | '*' :: _ => none
      | '+' :: _ => none
      | '?' :: _ => none
      | '[' :: _ => none
      | '\x7b' :: _ => none
      | '.' :: rest => pure (.dot, rest)
      | '^' :: rest => pure (.startAnchor, rest)
      | '$' :: rest => pure (.endAnchor, rest)
      | '\\' :: c :: rest => if c.isAlphanum then none else pure (.lit c, rest)
      | ['\\'] => none
      | c :: rest => pure (.lit c, rest)
end

/-- Model of `regexp.Compile` on the fragment: parse the whole source at
the alternation level; leftover input (an unbalanced `)`) or any parse
failure is a compilation error. -/
def compileRegex (s : String) : Option Regex :=
  match parseAlt (4 * s.data.length + 16) s.data with
  | some (r, []) => some r
  | _ => none

/-! ### The configuration data model (`config.go`) and pod data -/

/-- Embeds `Condition` from `config.go`: a dot-notation path, key/value regex
sources, an invert flag, and the compiled regexes `ValidateConfig`
populates (`none` models the nil `*regexp.Regexp` of an unvalidated
condition). -/
structure Condition where
  Path : String
  KeyPattern : String
  ValuePattern : String
  Invert : Bool
  keyRe : Option Regex
  valueRe : Option Regex

/-- Embeds `ItemFilters` from `config.go`. -/
structure ItemFilters where
  Conditions : List Condition

/-- Embeds `TemplateVar` from `config.go`: a path into the pod JSON and a URL
fragment in which the literal `$VALUE` is replaced. -/
structure TemplateVar where
  Path : String
  URLAppend : String

/-- Embeds `MenuItem` from `config.go`. -/
structure MenuItem where
  Description : String
  Title : String
  URL : String
  Filters : ItemFilters
  TemplateVars : List TemplateVar

/-- Embeds `Config` from `config.go`. -/
structure Config where
  MenuItems : List MenuItem

/-- Embeds `PodData` from the pod-data file: the decoded `kubectl` output
(`Parsed`, a JSON object modelled as an association list) plus the
identifying fields and raw bytes, which path resolution never reads. -/
structure PodData where
  Name : String
  Namespace : String
  RawJSON : String
  Parsed : List (String × Value)

/-- Segment walk behind `PodData.ResolvePath`: the current value must
be a map at every step and the segment must be present as a key; when
the segments are exhausted the current value (of any kind, explicit
null included) is returned. -/
def resolveSegs : Value → List String → Option Value
  | v, [] => some v
  | .vmap m, seg :: rest =>
      match List.lookup seg m with
      | some v => resolveSegs v rest
      | none => none
  | _, _ :: _ => none

/-- Embeds `PodData.ResolvePath`: split the path on `.` and walk the parsed
JSON from the root map.  Returns `none` for Go's `(nil, false)` and
`some v` for `(v, true)`. -/
def PodData.ResolvePath (p : PodData) (path : String) : Option Value :=
  resolveSegs (.vmap p.Parsed) (stringsSplitDot path)

/-- Embeds `anchorPattern` from `config.go`: prepend `^` when the source does
not start with one, then append `$` when the (possibly prepended)
pattern does not end with one. -/
def anchorPattern (p : String) : String :=
  let p1 := if goHasPrefix p "^" then p else "^" ++ p
  if goHasSuffix p1 "$" then p1 else p1 ++ "$"

/-- Embeds `Condition.matchMap` from `config.go`: scan the entries for one
whose key matches the compiled key pattern and whose stringified value
matches the compiled value pattern.  A `none` compiled pattern that the
scan actually consults models the nil-pointer panic of unvalidated
conditions and yields `none`. -/
def Condition.matchMap (c : Condition) : List (String × Value) → Option Bool
  | [] => some false
  | (k, v) :: rest => do
      let kre ← c.keyRe
      if MatchString kre k then do
        let vre ← c.valueRe
        if MatchString vre (stringify v) then pure true
        else c.matchMap rest
      else c.matchMap rest

/-- Embeds `Condition.matchArray` from `config.go`: scan the elements for one
whose stringified form matches the compiled value pattern. -/
def Condition.matchArray (c : Condition) : List Value → Option Bool
  | [] => some false
  | v :: rest => do
      let vre ← c.valueRe
      if MatchString vre (stringify v) then pure true
      else c.matchArray rest

/-- The `matched` computation of `Condition.Evaluate`: resolution
failure and explicit null give `false`; maps, arrays and scalars
dispatch to their matching rules. -/
def Condition.evalMatched (c : Condition) (pd : PodData) : Option Bool :=
  match pd.ResolvePath c.Path with
  | none => some false
  | some .null => some false
  | some (.vmap m) => c.matchMap m
  | some (.arr a) => c.matchArray a
  | some v => (c.valueRe).map fun vre => MatchString vre (stringify v)

/-- Embeds `Condition.Evaluate` from `config.go`: the `matched` base result,
negated when `Invert` is set. -/
def Condition.Evaluate (c : Condition) (pd : PodData) : Option Bool :=
  (c.evalMatched pd).map fun matched => if c.Invert then !matched else matched

/-- The condition loop of `MenuItem.MatchesPod`: stop with `false` at
the first failing condition. -/
def matchesConds (pd : PodData) : List Condition → Option Bool
  | [] => some true
  | c :: rest => do
      let b ← c.Evaluate pd
      if b then matchesConds pd rest else pure false

/-- Embeds `MenuItem.MatchesPod` from `config.go`: all conditions must pass;
no conditions always passes. -/
def MenuItem.MatchesPod (item : MenuItem) (pd : PodData) : Option Bool :=
  matchesConds pd item.Filters.Conditions

/-- Embeds `TemplateVar.resolve` from `config.go`: empty string when there is
no pod or the path does not resolve, otherwise the stringified value. -/
def TemplateVar.resolve (tv : TemplateVar) (pd : Option PodData) : String :=
  match pd with
  | none => ""
  | some p =>
      match p.ResolvePath tv.Path with
      | none => ""
      | some v => stringify v

/-- Embeds `MenuItem.ResolveURL` from `config.go`: fold the template variables
in declaration order over the base URL, skipping a variable whenever
its resolved string is empty and otherwise appending its fragment with
every `$VALUE` replaced. -/
def MenuItem.ResolveURL (item : MenuItem) (pd : Option PodData) : String :=
  item.TemplateVars.foldl
    (fun url tv =>
      let val := tv.resolve pd
      if val = "" then url
      else url ++ goReplaceAll tv.URLAppend "$VALUE" val)
    item.URL

/-- Embeds `FilterMenuItems` from the pod-data file: with no pod context keep
exactly the items without conditions; with a pod keep the items whose
conditions all pass, preserving order. -/
def FilterMenuItems : List MenuItem → Option PodData → Option (List MenuItem)
  | [], _ => some []
  | item :: rest, none =>
      (FilterMenuItems rest none).map fun f =>
        if item.Filters.Conditions.isEmpty then item :: f else f
  | item :: rest, some pd => do
      let b ← item.MatchesPod pd
      let f ← FilterMenuItems rest (some pd)
      pure (if b then item :: f else f)

/-! ### Configuration validation (`ValidateConfig` in `config.go`)

Go mutates the configuration in place through pointers while walking
it and returns only an error; the embedding threads the partially
updated configuration explicitly, so `ValidateConfig` returns the
mutated configuration together with the optional error. -/

/-- What went wrong inside one condition. -/
inductive CondError where
  | emptyPath : CondError
  | badKeyPattern : String → CondError
  | badValuePattern : String → CondError
deriving DecidableEq

/-- What went wrong inside one template variable. -/
inductive TVError where
  | emptyPath : TVError
  | emptyURLAppend : TVError
deriving DecidableEq

/-- What went wrong inside one menu item. -/
inductive ItemError where
  | emptyTitle : ItemError
  | emptyURL : ItemError
  | condError : Nat → CondError → ItemError
  | tvError : Nat → TVError → ItemError
deriving DecidableEq

/-- The validation errors of `ValidateConfig`, carrying the context Go
interpolates into its error strings (entry index, entry title, inner
index, offending pattern source). -/
inductive ConfigError where
  | noMenuItems : ConfigError
  | emptyTitle : Nat → ConfigError
  | emptyURL : Nat → String → ConfigError
  | emptyCondPath : Nat → String → Nat → ConfigError
  | invalidKeyPattern : Nat → String → Nat → String → ConfigError
  | invalidValuePattern : Nat → String → Nat → String → ConfigError
  | emptyTemplateVarPath : Nat → String → Nat → ConfigError
  | emptyTemplateVarURLAppend : Nat → String → Nat → ConfigError
deriving DecidableEq

/-- Attach entry/inner context to an item-level error, as the Go error
strings do. -/
def ItemError.toConfigError (i : Nat) (title : String) : ItemError → ConfigError
  | .emptyTitle => .emptyTitle i
  | .emptyURL => .emptyURL i title
  | .condError j .emptyPath => .emptyCondPath i title j
  | .condError j (.badKeyPattern src) => .invalidKeyPattern i title j src
  | .condError j (.badValuePattern src) => .invalidValuePattern i title j src
  | .tvError j .emptyPath => .emptyTemplateVarPath i title j
  | .tvError j .emptyURLAppend => .emptyTemplateVarURLAppend i title j

/-- The condition body of `ValidateConfig`'s inner loop: reject an
empty path, default empty pattern sources to `.*`, then compile the
key pattern and the value pattern (anchored) in that order, storing
each compiled regex as soon as it is obtained.  The returned condition
reflects every mutation made before a failure. -/
def validateCondition (c : Condition) : Condition × Option CondError :=
  if c.Path = "" then (c, some .emptyPath)
  else
    let c1 := if c.KeyPattern = "" then { c with KeyPattern := ".*" } else c
    let c2 := if c1.ValuePattern = "" then { c1 with ValuePattern := ".*" } else c1
    match compileRegex (anchorPattern c2.KeyPattern) with
    | none => (c2, some (.badKeyPattern c2.KeyPattern))
    | some kre =>
        let c3 := { c2 with keyRe := some kre }
        match compileRegex (anchorPattern c3.ValuePattern) with
        | none => (c3, some (.badValuePattern c3.ValuePattern))
        | some vre => ({ c3 with valueRe := some vre }, none)

/-- Embeds `ValidateConfig`'s condition loop: conditions before the failure
keep their mutations, the failing one its partial mutations, the rest
are untouched; the failure index is reported. -/
def validateConditions : List Condition → List Condition × Option (Nat × CondError)
  | [] => ([], none)
  | c :: rest =>
      match validateCondition c with
      | (c', some e) => (c' :: rest, some (0, e))
      | (c', none) =>
          match validateConditions rest with
          | (rest', some (j, e)) => (c' :: rest', some (j + 1, e))
          | (rest', none) => (c' :: rest', none)

/-- Embeds `ValidateConfig`'s template-variable loop: reject the first empty
path or empty `urlAppend`; nothing is mutated. -/
def validateTemplateVars : List TemplateVar → Option (Nat × TVError)
  | [] => none
  | tv :: rest =>
      if tv.Path = "" then some (0, .emptyPath)
      else if tv.URLAppend = "" then some (0, .emptyURLAppend)
      else (validateTemplateVars rest).map fun je => (je.1 + 1, je.2)

/-- The per-entry body of `ValidateConfig`: title, then URL, then the
condition loop (mutating), then the template-variable loop. -/
def validateMenuItem (item : MenuItem) : MenuItem × Option ItemError :=
  if item.Title = "" then (item, some .emptyTitle)
  else if item.URL = "" then (item, some .emptyURL)
  else
    match validateConditions item.Filters.Conditions with
    | (conds', some (j, e)) =>
        ({ item with Filters := ⟨conds'⟩ }, some (.condError j e))
    | (conds', none) =>
        let item' := { item with Filters := ⟨conds'⟩ }
        match validateTemplateVars item.TemplateVars with
        | some (j, e) => (item', some (.tvError j e))
        | none => (item', none)

/-- Embeds `ValidateConfig`'s entry loop, reporting the failing entry's index
and title along with its error. -/
def validateMenuItems : List MenuItem → List MenuItem × Option (Nat × String × ItemError)
  | [] => ([], none)
  | item :: rest =>
      match validateMenuItem item with
      | (item', some e) => (item' :: rest, some (0, item'.Title, e))
      | (item', none) =>
          match validateMenuItems rest with
          | (rest', some (i, t, e)) => (item' :: rest', some (i + 1, t, e))
          | (rest', none) => (item' :: rest', none)

/-- Embeds `ValidateConfig` from `config.go`: reject an empty item list, then
run the entry loop; the returned configuration carries every mutation
(pattern defaults and compiled regexes) made before a failure. -/
def ValidateConfig (cfg : Config) : Config × Option ConfigError :=
  if cfg.MenuItems.isEmpty then (cfg, some .noMenuItems)
  else
    match validateMenuItems cfg.MenuItems with
    | (items', none) => ({ MenuItems := items' }, none)
    | (items', some (i, t, e)) => ({ MenuItems := items' }, some (e.toConfigError i t))

/-! ### Specification-side definitions

These follow the wording of the specification's contracts (and, for
the corrected claims, the claim text) rather than the Go control flow;
the theorems compare them with the source embeddings above. -/

/-- The object entries of a value, when it is an object. -/
def Value.asMap : Value → Option (List (String × Value))
  | .vmap m => some m
  | _ => none

/-- The specification's reading of the resolver walk (§4.1): per
segment, fail as soon as the current value is not a map or the key is
missing; when all segments are consumed, return the value found there,
an explicit null included. -/
def specWalk : List String → Value → Option Value
  | [], v => some v
  | seg :: rest, v =>
      match v.asMap with
      | none => none
      | some m =>
          match List.lookup seg m with
          | none => none
          | some child => specWalk rest child

/-- The resolver contract of §4.1 applied from the record root. -/
def resolveSpecC5 (pd : PodData) (path : String) : Option Value :=
  specWalk (stringsSplitDot path) (.vmap pd.Parsed)

/-- The specification's condition table (§4.4) for a compiled condition:
dispatch on the kind of the resolved value, then negate on invert. -/
def evalSpecBase (kre vre : Regex) (path : String) (invert : Bool) (pd : PodData) : Bool :=
  let base :=
    match pd.ResolvePath path with
    | none => false
    | some .null => false
    | some (.vmap m) =>
        m.any fun kv => MatchString kre kv.1 && MatchString vre (stringify kv.2)
    | some (.arr a) => a.any fun v => MatchString vre (stringify v)
    | some v => MatchString vre (stringify v)
  if invert then !base else base

/-- The template-resolution contract exactly as claim C3 states it:
skip a fragment only when resolution fails or yields null; any other
resolved value is stringified and substituted. -/
def resolveURLClaimC3 (item : MenuItem) (pd : Option PodData) : String :=
  match pd with
  | none => item.URL
  | some p =>
      item.TemplateVars.foldl
        (fun url tv =>
          match p.ResolvePath tv.Path with
          | none => url
          | some .null => url
          | some v => url ++ goReplaceAll tv.URLAppend "$VALUE" (stringify v))
        item.URL

/-- The template-resolution contract as amended: a fragment is skipped
exactly when the resolved value's stringified form is empty — that is,
when resolution fails, yields null, or yields a value that stringifies
to the empty string (such as an empty-string scalar). -/
def resolveURLAmendedC3 (item : MenuItem) (pd : Option PodData) : String :=
  match pd with
  | none => item.URL
  | some p =>
      item.TemplateVars.foldl
        (fun url tv =>
          match p.ResolvePath tv.Path with
          | none => url
          | some v =>
              if stringify v = "" then url
              else url ++ goReplaceAll tv.URLAppend "$VALUE" (stringify v))
        item.URL

/-- Decimal digit run evaluated left to right onto an accumulator;
fails at the first non-digit character. -/
def decodeDigits : List Char → Nat → Option Nat
  | [], acc => some acc
  | c :: rest, acc =>
      if 48 ≤ c.toNat ∧ c.toNat ≤ 57 then
        decodeDigits rest (acc * 10 + (c.toNat - 48))
      else none

/-- Reading of "decimal integer text with no fractional part and no
exponent": an optional leading minus followed by plain decimal digits,
evaluated to the integer they denote. -/
def decodeDecimal (s : String) : Option Int :=
  match s.data with
  | [] => none
  | c :: rest =>
      if c = '-' then
        if rest.isEmpty then none
        else (decodeDigits rest 0).map fun v => -(v : Int)
      else (decodeDigits (c :: rest) 0).map fun v => (v : Int)

/-- First failing element of a list under a check, with its index. -/
def firstFailure {α β : Type} (f : α → Option β) : List α → Option (Nat × β)
  | [] => none
  | a :: rest =>
      match f a with
      | some e => some (0, e)
      | none => (firstFailure f rest).map fun je => (je.1 + 1, je.2)

/-- The per-condition checks of §4.7 in the claimed order: non-empty
path, then (after defaulting omitted sources to `.*`) the anchored key
pattern must compile, then the anchored value pattern must compile. -/
def condCheck (c : Condition) : Option CondError :=
  if c.Path = "" then some .emptyPath
  else
    let kp := if c.KeyPattern = "" then ".*" else c.KeyPattern
    let vp := if c.ValuePattern = "" then ".*" else c.ValuePattern
    if compileRegex (anchorPattern kp) = none then some (.badKeyPattern kp)
    else if compileRegex (anchorPattern vp) = none then some (.badValuePattern vp)
    else none

/-- The per-template-variable checks of §4.7: non-empty path, then
non-empty `urlAppend`. -/
def tvCheck (tv : TemplateVar) : Option TVError :=
  if tv.Path = "" then some .emptyPath
  else if tv.URLAppend = "" then some .emptyURLAppend
  else none

/-- The per-entry checks of §4.7 in the claimed order: title, URL, the
conditions in order, then the template variables in order. -/
def itemCheck (item : MenuItem) : Option ItemError :=
  if item.Title = "" then some .emptyTitle
  else if item.URL = "" then some .emptyURL
  else
    match firstFailure condCheck item.Filters.Conditions with
    | some (j, e) => some (.condError j e)
    | none =>
        match firstFailure tvCheck item.TemplateVars with
        | some (j, e) => some (.tvError j e)
        | none => none

/-- The first validation error of a configuration under the claimed
halt-on-first-error order: the zero-entry check, then the entries in
order, each checked by `itemCheck`. -/
def firstErrorSpec (cfg : Config) : Option ConfigError :=
  if cfg.MenuItems.isEmpty then some .noMenuItems
  else
    match firstFailure (fun item => (itemCheck item).map fun e => (item.Title, e))
        cfg.MenuItems with
    | some (i, t, e) => some (e.toConfigError i t)
    | none => none

/-- A configuration on which every check of claim C6 passes. -/
def ValidConfig (cfg : Config) : Prop :=
  cfg.MenuItems ≠ [] ∧
  ∀ item ∈ cfg.MenuItems,
    item.Title ≠ "" ∧ item.URL ≠ "" ∧
    (∀ c ∈ item.Filters.Conditions,
      c.Path ≠ "" ∧
      compileRegex (anchorPattern (if c.KeyPattern = "" then ".*" else c.KeyPattern)) ≠ none ∧
      compileRegex (anchorPattern (if c.ValuePattern = "" then ".*" else c.ValuePattern)) ≠ none) ∧
    (∀ tv ∈ item.TemplateVars, tv.Path ≠ "" ∧ tv.URLAppend ≠ "")

/-- The per-condition frame of claim C10: path and invert flag are
untouched, each pattern source is untouched unless it was empty and
became `.*`, and each compiled-regex slot is either untouched or holds
the compilation of the condition's own anchored source. -/
def CondFrame (c c' : Condition) : Prop :=
  c'.Path = c.Path ∧ c'.Invert = c.Invert ∧
  (c'.KeyPattern = c.KeyPattern ∨ (c.KeyPattern = "" ∧ c'.KeyPattern = ".*")) ∧
  (c'.ValuePattern = c.ValuePattern ∨ (c.ValuePattern = "" ∧ c'.ValuePattern = ".*")) ∧
  (c'.keyRe = c.keyRe ∨ c'.keyRe = compileRegex (anchorPattern c'.KeyPattern)) ∧
  (c'.valueRe = c.valueRe ∨ c'.valueRe = compileRegex (anchorPattern c'.ValuePattern))

/-- The per-entry frame of claim C10: everything except the conditions'
pattern state is untouched, and each condition satisfies `CondFrame`. -/
def ItemFrame (it it' : MenuItem) : Prop :=
  it'.Title = it.Title ∧ it'.Description = it.Description ∧ it'.URL = it.URL ∧
  it'.TemplateVars = it.TemplateVars ∧
  List.Forall₂ CondFrame it.Filters.Conditions it'.Filters.Conditions

/-! ### Supporting lemmas -/

theorem matchMap_invert_irrel (c : Condition) (b : Bool) (m : List (String × Value)) :
    Condition.matchMap { c with Invert := b } m = c.matchMap m := by
  induction m with
  | nil => rfl
  | cons kv rest ih =>
      obtain ⟨k, v⟩ := kv
      simp only [Condition.matchMap, ih]

theorem matchArray_invert_irrel (c : Condition) (b : Bool) (a : List Value) :
    Condition.matchArray { c with Invert := b } a = c.matchArray a := by
  induction a with
  | nil => rfl
  | cons v rest ih => simp only [Condition.matchArray, ih]

theorem evalMatched_invert_irrel (c : Condition) (b : Bool) (pd : PodData) :
    Condition.evalMatched { c with Invert := b } pd = c.evalMatched pd := by
  unfold Condition.evalMatched
  simp only [matchMap_invert_irrel, matchArray_invert_irrel]

/-- C7: for every condition and record, evaluation with the invert flag
set is exactly the `Option`-level boolean negation of evaluation with it
unset; in particular a condition whose path does not resolve evaluates
to `true` when inverted. -/
theorem c7_invert_negation :
    (∀ (c : Condition) (pd : PodData),
      Condition.Evaluate { c with Invert := true } pd =
        (Condition.Evaluate { c with Invert := false } pd).map (fun b => !b)) ∧
    (∀ (c : Condition) (pd : PodData), pd.ResolvePath c.Path = none →
      Condition.Evaluate { c with Invert := true } pd = some true) := by
  constructor
  · intro c pd
    unfold Condition.Evaluate
    simp only [evalMatched_invert_irrel]
    cases c.evalMatched pd <;> simp
  · intro c pd h
    unfold Condition.Evaluate Condition.evalMatched
    simp only [show ({ c with Invert := true } : Condition).Path = c.Path from rfl, h]
    rfl

/-- Closed instance of `c7_invert_negation`: a concrete condition on a
missing annotations path, inverted, accepts a concrete pod. -/
theorem c7_invert_negation_witness :
    Condition.Evaluate
        { Path := "metadata.annotations", KeyPattern := "x", ValuePattern := ".*",
          Invert := true, keyRe := some .dot, valueRe := some .dot }
        { Name := "p", Namespace := "", RawJSON := "", Parsed := [] } = some true :=
  c7_invert_negation.2
    { Path := "metadata.annotations", KeyPattern := "x", ValuePattern := ".*",
      Invert := true, keyRe := some .dot, valueRe := some .dot }
    { Name := "p", Namespace := "", RawJSON := "", Parsed := [] } rfl

/-! ### Claim C3: URL template resolution -/

/-- C3 counterexample input: a record whose field `a` is the
empty-string scalar. -/
def c3Pod : PodData :=
  { Name := "p", Namespace := "", RawJSON := "", Parsed := [("a", .str "")] }

/-- C3 counterexample input: one template variable on path `a`. -/
def c3Item : MenuItem :=
  { Description := "", Title := "t", URL := "u",
    Filters := ⟨[]⟩, TemplateVars := [{ Path := "a", URLAppend := "?x=$VALUE" }] }

/-- C3, counterexample: the claim predicts that a template variable
whose path resolves to a non-null value always contributes its
fragment, so the resolved URL would be `u?x=`; the code skips any
value whose stringified form is empty and returns `u`. -/
theorem c3_resolveurl_counterexample :
    c3Item.ResolveURL (some c3Pod) = "u" ∧
    resolveURLClaimC3 c3Item (some c3Pod) = "u?x=" ∧
    c3Item.ResolveURL (some c3Pod) ≠ resolveURLClaimC3 c3Item (some c3Pod) := by
  refine ⟨rfl, rfl, ?_⟩
  decide

/-- With no pod context every template variable resolves to the empty
string, so the fold leaves the base URL untouched. -/
theorem resolveURL_none_aux (d t u : String) (fl : ItemFilters) (tvs : List TemplateVar) :
    MenuItem.ResolveURL ⟨d, t, u, fl, tvs⟩ none = u := by
  unfold MenuItem.ResolveURL
  simp [TemplateVar.resolve]

/-- C3 as amended: `resolveURL` iterates the template variables in
declaration order and skips a variable exactly when its resolved
value's stringified form is empty (resolution failure, null, or an
empty-string scalar); otherwise every `$VALUE` in the fragment is
replaced and the fragment appended.  With no record, the base URL is
returned unchanged. -/
theorem c3_resolveurl_amended :
    ∀ (item : MenuItem) (pd : Option PodData),
      item.ResolveURL pd = resolveURLAmendedC3 item pd := by
  intro item pd
  cases pd with
  | none =>
      show MenuItem.ResolveURL item none = item.URL
      obtain ⟨d, t, u, fl, tvs⟩ := item
      exact resolveURL_none_aux d t u fl tvs
  | some p =>
      unfold MenuItem.ResolveURL resolveURLAmendedC3
      refine List.foldl_ext _ _ item.URL fun url tv _ => ?_
      cases h : p.ResolvePath tv.Path with
      | none => simp [TemplateVar.resolve, h]
      | some v => simp [TemplateVar.resolve, h]

/-! ### Claim C5: path resolution -/

theorem resolveSegs_eq_specWalk (segs : List String) (v : Value) :
    resolveSegs v segs = specWalk segs v := by
  induction segs generalizing v with
  | nil => cases v <;> rfl
  | cons seg rest ih =>
      cases v with
      | vmap m =>
          show (match List.lookup seg m with
                | some w => resolveSegs w rest
                | none => none) =
               (match List.lookup seg m with
                | none => none
                | some child => specWalk rest child)
          cases List.lookup seg m with
          | none => rfl
          | some child => exact ih child
      | str s => rfl
      | int n => rfl
      | bool b => rfl
      | null => rfl
      | arr a => rfl

/-- C5 counterexample input: a record whose root object carries the
empty-string key. -/
def c5Pod : PodData :=
  { Name := "p", Namespace := "", RawJSON := "", Parsed := [("", .int 5)] }

/-- C5, counterexample: the claim predicts `found=false` for every
empty path, but the resolver treats the empty path as the single
empty-string segment and finds the value stored under the empty key. -/
theorem c5_resolvepath_counterexample :
    c5Pod.ResolvePath "" = some (.int 5) ∧ c5Pod.ResolvePath "" ≠ none := by
  have e : c5Pod.ResolvePath "" = some (.int 5) := rfl
  exact ⟨e, by rw [e]; exact fun h => Option.noConfusion h⟩

/-- C5 as amended: the resolver splits on `.` and walks segments left
to right exactly as the claim describes (failing as soon as the
current value is not a map or the key is missing, and returning the
found value — an explicit null included — when all segments are
consumed), but the empty path and empty segments are not special-cased:
each empty segment is looked up as a literal empty-string key, so the
empty path fails exactly when the root map lacks that key. -/
theorem c5_resolvepath_amended :
    (∀ (pd : PodData) (path : String), pd.ResolvePath path = resolveSpecC5 pd path) ∧
    (∀ pd : PodData, List.lookup "" pd.Parsed = none → pd.ResolvePath "" = none) := by
  constructor
  · intro pd path
    exact resolveSegs_eq_specWalk _ _
  · intro pd h
    unfold PodData.ResolvePath
    rw [show stringsSplitDot "" = [""] from rfl]
    unfold resolveSegs
    rw [h]

/-- Closed instance of `c5_resolvepath_amended`: on a record without an
empty-string root key, the empty path fails to resolve. -/
theorem c5_resolvepath_amended_witness :
    c3Pod.ResolvePath "" = none ∧ c3Pod.ResolvePath "metadata" = resolveSpecC5 c3Pod "metadata" :=
  ⟨c5_resolvepath_amended.2 c3Pod rfl, c5_resolvepath_amended.1 c3Pod "metadata"⟩

/-! ### Claim C9: filtering returns a subsequence -/

/-- C9: whenever filtering succeeds (no condition panicked), the result
is a subsequence of the input: every kept entry is an input entry, kept
at most once, in the input's relative order. -/
theorem c9_filter_sublist :
    ∀ (items : List MenuItem) (pd : Option PodData) (out : List MenuItem),
      FilterMenuItems items pd = some out → out.Sublist items := by
  intro items pd
  induction items with
  | nil =>
      intro out h
      have : some ([] : List MenuItem) = some out := h
      injection this with e
      rw [← e]
  | cons item rest ih =>
      intro out h
      cases pd with
      | none =>
          unfold FilterMenuItems at h
          rcases Option.map_eq_some'.mp h with ⟨f', hf, hout⟩
          rw [← hout]
          cases hq : item.Filters.Conditions.isEmpty with
          | true =>
              rw [if_pos rfl]
              exact (ih f' hf).cons₂ item
          | false =>
              rw [if_neg (by simp)]
              exact (ih f' hf).cons item
      | some p =>
          unfold FilterMenuItems at h
          rcases Option.bind_eq_some.mp h with ⟨b, hb, h2⟩
          rcases Option.bind_eq_some.mp h2 with ⟨f', hf, h3⟩
          injection h3 with h3
          rw [← h3]
          cases b with
          | false =>
              rw [if_neg (by simp)]
              exact (ih f' hf).cons item
          | true =>
              rw [if_pos rfl]
              exact (ih f' hf).cons₂ item

/-- Closed instance of `c9_filter_sublist` at a concrete input: with no
pod context the conditioned entry is dropped and the result is a
subsequence. -/
theorem c9_filter_sublist_witness :
    FilterMenuItems [c3Item] none = some [c3Item] ∧ [c3Item].Sublist [c3Item] :=
  ⟨rfl, c9_filter_sublist [c3Item] none [c3Item] rfl⟩

/-! ### Claim C2: AND semantics of matching and degraded filtering -/

theorem matchesConds_all (pd : PodData) (cs : List Condition)
    (h : ∀ c ∈ cs, c.Evaluate pd ≠ none) :
    matchesConds pd cs = some (cs.all fun c => c.Evaluate pd == some true) := by
  induction cs with
  | nil => rfl
  | cons c rest ih =>
      have hc := h c (by simp)
      cases hb : c.Evaluate pd with
      | none => exact absurd hb hc
      | some b =>
          unfold matchesConds
          rw [hb]
          cases b with
          | true =>
              have ih2 := ih fun c hm => h c (by simp [hm])
              show matchesConds pd rest =
                some ((c :: rest).all fun c => c.Evaluate pd == some true)
              rw [ih2]
              congr 1
              simp [List.all_cons, hb]
          | false =>
              show some false =
                some ((c :: rest).all fun c => c.Evaluate pd == some true)
              congr 1
              simp [List.all_cons, hb]

/-- C2: a menu item matches a pod exactly when every one of its
conditions evaluates to true (the vacuous conjunction over an empty
condition list being true), matching stops with `false` at the first
failing condition regardless of the remaining ones, and with no pod
context the filter keeps exactly the entries that have no conditions. -/
theorem c2_matching :
    (∀ (item : MenuItem) (pd : PodData), item.Filters.Conditions = [] →
      item.MatchesPod pd = some true) ∧
    (∀ (item : MenuItem) (pd : PodData),
      (∀ c ∈ item.Filters.Conditions, c.Evaluate pd ≠ none) →
      item.MatchesPod pd =
        some (item.Filters.Conditions.all fun c => c.Evaluate pd == some true)) ∧
    (∀ (item : MenuItem) (pd : PodData) (c : Condition) (cs : List Condition),
      item.Filters.Conditions = c :: cs → c.Evaluate pd = some false →
      item.MatchesPod pd = some false) ∧
    (∀ items : List MenuItem,
      FilterMenuItems items none =
        some (items.filter fun it => it.Filters.Conditions.isEmpty)) := by
  refine ⟨?_, ?_, ?_, ?_⟩
  · intro item pd h
    unfold MenuItem.MatchesPod
    rw [h]
    rfl
  · intro item pd h
    exact matchesConds_all pd item.Filters.Conditions h
  · intro item pd c cs hconds heval
    unfold MenuItem.MatchesPod
    rw [hconds]
    unfold matchesConds
    rw [heval]
    rfl
  · intro items
    induction items with
    | nil => rfl
    | cons item rest ih =>
        unfold FilterMenuItems
        rw [ih]
        simp only [Option.map_some', List.filter_cons]

def c2Pod : PodData :=
  { Name := "nginx-abc123", Namespace := "production", RawJSON := "",
    Parsed := [("metadata", .vmap [("labels",
      .vmap [("app", .str "nginx"), ("env", .str "production")])])] }

def c2CondTrue : Condition :=
  (validateCondition ⟨"metadata.labels", "app", "nginx", false, none, none⟩).1

def c2CondFalse : Condition :=
  (validateCondition ⟨"metadata.labels", "app", "redis", false, none, none⟩).1

def c2ItemEmpty : MenuItem := ⟨"", "t", "u", ⟨[]⟩, []⟩

def c2Item : MenuItem := ⟨"", "t", "u", ⟨[c2CondTrue, c2CondFalse]⟩, []⟩

def c2ItemFalse : MenuItem := ⟨"", "t", "u", ⟨[c2CondFalse, c2CondTrue]⟩, []⟩

/-- Closed instance of `c2_matching` at concrete inputs: an entry with
no conditions matches, an entry's match is the conjunction of its
conditions' results, and a first failing condition settles the match. -/
theorem c2_matching_witness :
    c2ItemEmpty.MatchesPod c2Pod = some true ∧
    c2Item.MatchesPod c2Pod =
      some (c2Item.Filters.Conditions.all fun c => c.Evaluate c2Pod == some true) ∧
    c2ItemFalse.MatchesPod c2Pod = some false :=
  ⟨c2_matching.1 c2ItemEmpty c2Pod rfl,
   c2_matching.2.1 c2Item c2Pod (by decide),
   c2_matching.2.2.1 c2ItemFalse c2Pod c2CondFalse [c2CondTrue] rfl (by decide)⟩

/-! ### Claim C1: type-dispatched condition evaluation -/

theorem matchMap_eq_any (c : Condition) (kre vre : Regex)
    (hk : c.keyRe = some kre) (hv : c.valueRe = some vre) (m : List (String × Value)) :
    c.matchMap m =
      some (m.any fun kv => MatchString kre kv.1 && MatchString vre (stringify kv.2)) := by
  induction m with
  | nil => rfl
  | cons kv rest ih =>
      obtain ⟨k, v⟩ := kv
      unfold Condition.matchMap
      rw [hk, hv]
      show (if MatchString kre k then
              (if MatchString vre (stringify v) then some true else c.matchMap rest)
            else c.matchMap rest) = _
      cases hMk : MatchString kre k with
      | false =>
          rw [if_neg (by simp), ih]
          congr 1
          simp [List.any_cons, hMk]
      | true =>
          rw [if_pos rfl]
          cases hMv : MatchString vre (stringify v) with
          | false =>
              rw [if_neg (by simp), ih]
              congr 1
              simp [List.any_cons, hMk, hMv]
          | true =>
              rw [if_pos rfl]
              congr 1
              simp [List.any_cons, hMk, hMv]

theorem matchArray_eq_any (c : Condition) (vre : Regex)
    (hv : c.valueRe = some vre) (a : List Value) :
    c.matchArray a = some (a.any fun v => MatchString vre (stringify v)) := by
  induction a with
  | nil => rfl
  | cons v rest ih =>
      unfold Condition.matchArray
      rw [hv]
      show (if MatchString vre (stringify v) then some true else c.matchArray rest) = _
      cases hMv : MatchString vre (stringify v) with
      | false =>
          rw [if_neg (by simp), ih]
          congr 1
          simp [List.any_cons, hMv]
      | true =>
          rw [if_pos rfl]
          congr 1
          simp [List.any_cons, hMv]

/-- C1: a compiled condition evaluates by dispatching on the kind of
the value its path resolves to — false for a missed resolution or an
explicit null, an existential over entries (key and stringified value
both matching) for a map, an existential over stringified elements for
a sequence, a single stringified match for a scalar — and the final
result negates the base exactly when the invert flag is set. -/
theorem c1_evaluate_dispatch :
    ∀ (c : Condition) (pd : PodData) (kre vre : Regex),
      c.keyRe = some kre → c.valueRe = some vre →
      c.Evaluate pd = some (evalSpecBase kre vre c.Path c.Invert pd) := by
  intro c pd kre vre hk hv
  unfold Condition.Evaluate Condition.evalMatched evalSpecBase
  cases hr : pd.ResolvePath c.Path with
  | none => rfl
  | some v =>
      cases v with
      | null => rfl
      | vmap m => simp only [matchMap_eq_any c kre vre hk hv m]; rfl
      | arr a => simp only [matchArray_eq_any c vre hv a]; rfl
      | str s => simp only [hv]; rfl
      | int n => simp only [hv]; rfl
      | bool b => simp only [hv]; rfl

def c1Pod : PodData :=
  { Name := "nginx-abc123", Namespace := "production", RawJSON := "",
    Parsed := [("metadata", .vmap [("labels",
      .vmap [("app", .str "nginx"), ("env", .str "production")])])] }

def c1Cond : Condition :=
  (validateCondition ⟨"metadata.labels", "app", "nginx", false, none, none⟩).1

def c1Kre : Regex := (compileRegex "^app$").getD .emptyStr

def c1Vre : Regex := (compileRegex "^nginx$").getD .emptyStr

/-- Closed instance of `c1_evaluate_dispatch` at a concrete compiled
condition and pod. -/
theorem c1_evaluate_dispatch_witness :
    c1Cond.Evaluate c1Pod =
      some (evalSpecBase c1Kre c1Vre c1Cond.Path c1Cond.Invert c1Pod) :=
  c1_evaluate_dispatch c1Cond c1Pod c1Kre c1Vre rfl rfl

/-! ### Claim C4: implicit anchoring and whole-string matching -/

def c4Cond : Condition :=
  (validateCondition ⟨"f", "", "ab|cd", false, none, none⟩).1

def c4Pod : PodData :=
  { Name := "p", Namespace := "", RawJSON := "", Parsed := [("f", .str "abx")] }

/-- C4: the textual anchoring `"^" + p + "$"` does not group the
source, so for a source with a top-level alternation the anchors bind
to the first and last alternatives only: `ab|cd` becomes `^ab|cd$`,
which matches the candidate `abx` although `abx` as a whole is not in
the language of `ab|cd` — a validated condition with value pattern
`ab|cd` accepts the scalar `abx`, violating the whole-string
invariant.  (For alternation-free sources such as `app` the invariant
does hold: `myapp` is rejected.) -/
theorem c4_anchoring_code_bug :
    anchorPattern "ab|cd" = "^ab|cd$" ∧
    (compileRegex (anchorPattern "ab|cd")).map (fun r => MatchString r "abx") = some true ∧
    (compileRegex "ab|cd").map (fun r => FullMatchString r "abx") = some false ∧
    c4Cond.Evaluate c4Pod = some true ∧
    (compileRegex (anchorPattern "app")).map (fun r => MatchString r "myapp") = some false := by
  refine ⟨?_, ?_, ?_, ?_, ?_⟩ <;> decide

/-! ### Claim C8: stringification -/

theorem toNat_ofNat_valid (n : Nat) (h : n.isValidChar) : (Char.ofNat n).toNat = n := by
  rw [Char.ofNat, dif_pos h]
  rfl

theorem toNat_ofNat_small (n : Nat) (h : n < 0xd800) : (Char.ofNat n).toNat = n :=
  toNat_ofNat_valid n (Or.inl h)

theorem decodeDigits_append (l1 l2 : List Char) (acc : Nat) :
    decodeDigits (l1 ++ l2) acc =
      (decodeDigits l1 acc).bind fun a => decodeDigits l2 a := by
  induction l1 generalizing acc with
  | nil => rfl
  | cons c rest ih =>
      simp only [List.cons_append, decodeDigits]
      by_cases h : 48 ≤ c.toNat ∧ c.toNat ≤ 57
      · rw [if_pos h, if_pos h]
        exact ih _
      · rw [if_neg h, if_neg h]
        rfl

theorem natDigitsAux_decode (f : Nat) :
    ∀ n, n ≤ f → decodeDigits (natDigitsAux f n) 0 = some n := by
  induction f with
  | zero =>
      intro n hn
      have h0 : n = 0 := by omega
      subst h0
      decide
  | succ f ih =>
      intro n hn
      unfold natDigitsAux
      by_cases h10 : n < 10
      · rw [if_pos h10]
        unfold decodeDigits
        have ht : (Char.ofNat (48 + n)).toNat = 48 + n := toNat_ofNat_small _ (by omega)
        rw [ht, if_pos (by omega)]
        unfold decodeDigits
        congr 1
        omega
      · rw [if_neg h10]
        rw [decodeDigits_append]
        rw [ih (n / 10) (by omega)]
        show decodeDigits [Char.ofNat (48 + n % 10)] (n / 10) = some n
        unfold decodeDigits
        have ht : (Char.ofNat (48 + n % 10)).toNat = 48 + n % 10 :=
          toNat_ofNat_small _ (by omega)
        rw [ht, if_pos (by omega)]
        unfold decodeDigits
        congr 1
        omega

theorem natDigits_decode (n : Nat) : decodeDigits (natDigits n) 0 = some n :=
  natDigitsAux_decode n n (Nat.le_refl n)

theorem natDigitsAux_chars (f : Nat) :
    ∀ n, n ≤ f → ∀ c ∈ natDigitsAux f n, 48 ≤ c.toNat ∧ c.toNat ≤ 57 := by
  induction f with
  | zero =>
      intro n hn c hc
      have h0 : n = 0 := by omega
      subst h0
      simp only [natDigitsAux, List.mem_singleton] at hc
      subst hc
      decide
  | succ f ih =>
      intro n hn c hc
      unfold natDigitsAux at hc
      by_cases h10 : n < 10
      · rw [if_pos h10] at hc
        simp only [List.mem_singleton] at hc
        subst hc
        have ht : (Char.ofNat (48 + n)).toNat = 48 + n := toNat_ofNat_small _ (by omega)
        omega
      · rw [if_neg h10] at hc
        rcases List.mem_append.mp hc with h1 | h2
        · exact ih (n / 10) (by omega) c h1
        · simp only [List.mem_singleton] at h2
          subst h2
          have ht : (Char.ofNat (48 + n % 10)).toNat = 48 + n % 10 :=
            toNat_ofNat_small _ (by omega)
          omega

theorem natDigits_nonempty (n : Nat) : natDigits n ≠ [] := by
  unfold natDigits
  cases hf : n with
  | zero => decide
  | succ f =>
      unfold natDigitsAux
      by_cases h10 : f + 1 < 10
      · rw [if_pos h10]
        simp
      · rw [if_neg h10]
        simp

theorem intToDecimal_decode (n : Int) : decodeDecimal (intToDecimal n) = some n := by
  by_cases hneg : n < 0
  · have hdata : (intToDecimal n).data = '-' :: natDigits n.natAbs := by
      unfold intToDecimal
      rw [if_pos hneg]
      rfl
    unfold decodeDecimal
    rw [hdata]
    show (if ('-' : Char) = '-' then
            if (natDigits n.natAbs).isEmpty then none
            else (decodeDigits (natDigits n.natAbs) 0).map fun v => -(v : Int)
          else (decodeDigits ('-' :: natDigits n.natAbs) 0).map fun v => (v : Int)) = some n
    rw [if_pos rfl,
      if_neg (by simp [List.isEmpty_iff, natDigits_nonempty n.natAbs]),
      natDigits_decode]
    show some (-(n.natAbs : Int)) = some n
    congr 1
    omega
  · have hdata : (intToDecimal n).data = natDigits n.toNat := by
      unfold intToDecimal
      rw [if_neg hneg]
    obtain ⟨c, rest, hcr⟩ : ∃ c rest, natDigits n.toNat = c :: rest := by
      cases h : natDigits n.toNat with
      | nil => exact absurd h (natDigits_nonempty _)
      | cons c rest => exact ⟨c, rest, rfl⟩
    have hch : 48 ≤ c.toNat ∧ c.toNat ≤ 57 :=
      natDigitsAux_chars n.toNat n.toNat (Nat.le_refl _) c
        (by rw [show natDigitsAux n.toNat n.toNat = natDigits n.toNat from rfl, hcr]; simp)
    unfold decodeDecimal
    rw [hdata, hcr]
    show (if c = '-' then
            if rest.isEmpty then none
            else (decodeDigits rest 0).map fun v => -(v : Int)
          else (decodeDigits (c :: rest) 0).map fun v => (v : Int)) = some n
    rw [if_neg (by intro he; subst he; revert hch; decide), ← hcr, natDigits_decode]
    show some ((n.toNat : Int)) = some n
    congr 1
    omega

theorem intToDecimal_chars (n : Int) :
    ∀ c ∈ (intToDecimal n).data,
      (48 ≤ c.toNat ∧ c.toNat ≤ 57) ∨ (c = '-' ∧ n < 0) := by
  intro c hc
  by_cases hneg : n < 0
  · have hdata : (intToDecimal n).data = '-' :: natDigits n.natAbs := by
      unfold intToDecimal
      rw [if_pos hneg]
      rfl
    rw [hdata] at hc
    rcases List.mem_cons.mp hc with he | hm
    · exact Or.inr ⟨he, hneg⟩
    · exact Or.inl (natDigitsAux_chars n.natAbs n.natAbs (Nat.le_refl _) c hm)
  · have hdata : (intToDecimal n).data = natDigits n.toNat := by
      unfold intToDecimal
      rw [if_neg hneg]
    rw [hdata] at hc
    exact Or.inl (natDigitsAux_chars n.toNat n.toNat (Nat.le_refl _) c hc)

/-- C8, counterexample: `1e19` is an exactly representable integral
`float64` outside the `int64` range, so the round-trip guard of
`stringify`'s number branch fails and the value is rendered by the
`g` verb as `1e+19` — exponent form, not the decimal integer text the
claim promises for every integral-valued number. -/
theorem c8_stringify_counterexample :
    stringify (.int 10000000000000000000) = "1e+19" ∧
    stringify (.int 10000000000000000000) ≠ intToDecimal 10000000000000000000 ∧
    'e' ∈ (stringify (.int 10000000000000000000)).data ∧
    decodeDecimal (stringify (.int 10000000000000000000)) = none := by
  refine ⟨?_, ?_, ?_, ?_⟩ <;> decide

/-- C8 as amended: a string stringifies to itself, a boolean to
`true`/`false`, null to the empty string; an integral number whose
value lies in the `int64` range — where the round-trip guard
`val == float64(int64(val))` holds — stringifies to plain decimal
integer text: it decodes back to the same integer under a
digits-with-optional-minus reading, and every one of its characters is
a decimal digit or the leading minus sign of a negative number (so
there is no fractional part and no exponent).  Integral values outside
that range take the `g`-verb fallback instead. -/
theorem c8_stringify_amended :
    (∀ s : String, stringify (.str s) = s) ∧
    (stringify (.bool true) = "true" ∧ stringify (.bool false) = "false") ∧
    stringify .null = "" ∧
    (∀ n : Int, -(2 ^ 63) ≤ n → n < 2 ^ 63 →
      decodeDecimal (stringify (.int n)) = some n) ∧
    (∀ n : Int, -(2 ^ 63) ≤ n → n < 2 ^ 63 →
      ∀ c ∈ (stringify (.int n)).data,
        (48 ≤ c.toNat ∧ c.toNat ≤ 57) ∨ (c = '-' ∧ n < 0)) := by
  have hguard : ∀ n : Int, -(2 ^ 63) ≤ n → n < 2 ^ 63 →
      stringify (.int n) = intToDecimal n := by
    intro n h1 h2
    show (if int64RoundTrips n then intToDecimal n else goFmtG n) = intToDecimal n
    have hb : int64RoundTrips n = true := by
      simp only [int64RoundTrips, Bool.and_eq_true, decide_eq_true_eq]
      exact ⟨h1, h2⟩
    rw [if_pos hb]
  refine ⟨fun s => rfl, ⟨rfl, rfl⟩, rfl, ?_, ?_⟩
  · intro n h1 h2
    rw [hguard n h1 h2]
    exact intToDecimal_decode n
  · intro n h1 h2 c hc
    rw [hguard n h1 h2] at hc
    exact intToDecimal_chars n c hc

/-- Closed instance of `c8_stringify_amended`: the in-range number `-7`
stringifies to text that decodes back to `-7`, and its digit character
is a decimal digit. -/
theorem c8_stringify_amended_witness :
    decodeDecimal (stringify (.int (-7))) = some (-7) ∧
    ((48 ≤ Char.toNat '7' ∧ Char.toNat '7' ≤ 57) ∨ ('7' = '-' ∧ (-7 : Int) < 0)) :=
  ⟨c8_stringify_amended.2.2.2.1 (-7) (by decide) (by decide),
   c8_stringify_amended.2.2.2.2 (-7) (by decide) (by decide) '7' (by decide)⟩

/-! ### Claim C6: validation checks, defaults and halt-on-first-error -/

theorem validateCondition_snd (c : Condition) :
    (validateCondition c).2 = condCheck c := by
  unfold validateCondition condCheck
  by_cases hp : c.Path = ""
  · simp [hp]
  · simp only [hp, if_false]
    by_cases hk : c.KeyPattern = "" <;> by_cases hv : c.ValuePattern = "" <;>
      simp only [hk, hv, if_true, if_false] <;>
      cases hck : compileRegex (anchorPattern (if c.KeyPattern = "" then ".*" else c.KeyPattern)) <;>
      simp_all <;>
      cases hcv : compileRegex (anchorPattern (if c.ValuePattern = "" then ".*" else c.ValuePattern)) <;>
      simp_all

theorem validateConditions_snd (cs : List Condition) :
    (validateConditions cs).2 = firstFailure condCheck cs := by
  induction cs with
  | nil => rfl
  | cons c rest ih =>
      unfold validateConditions firstFailure
      rw [← validateCondition_snd c]
      cases hvc : validateCondition c with
      | mk c' eo =>
          cases eo with
          | some e => rfl
          | none =>
              show (match validateConditions rest with
                    | (rest', some (j, e)) => (c' :: rest', some (j + 1, e))
                    | (rest', none) => (c' :: rest', none)).2 =
                (firstFailure condCheck rest).map fun je => (je.1 + 1, je.2)
              rw [← ih]
              cases hvr : validateConditions rest with
              | mk rest' eo2 =>
                  cases eo2 with
                  | some je => cases je with | mk j e => rfl
                  | none => rfl

theorem validateTemplateVars_eq (tvs : List TemplateVar) :
    validateTemplateVars tvs = firstFailure tvCheck tvs := by
  induction tvs with
  | nil => rfl
  | cons tv rest ih =>
      unfold validateTemplateVars firstFailure
      by_cases h1 : tv.Path = ""
      · simp [tvCheck, h1]
      · by_cases h2 : tv.URLAppend = ""
        · simp [tvCheck, h1, h2]
        · simp [tvCheck, h1, h2, ih]

theorem validateMenuItem_snd (item : MenuItem) :
    (validateMenuItem item).2 = itemCheck item := by
  unfold validateMenuItem itemCheck
  by_cases ht : item.Title = ""
  · simp [ht]
  · by_cases hu : item.URL = ""
    · simp [ht, hu]
    · simp only [ht, hu, if_false]
      rw [← validateConditions_snd]
      cases hvc : validateConditions item.Filters.Conditions with
      | mk conds' eo =>
          cases eo with
          | some je => cases je with | mk j e => rfl
          | none =>
              show (match validateTemplateVars item.TemplateVars with
                    | some (j, e) =>
                        ({ item with Filters := ItemFilters.mk conds' },
                          some (ItemError.tvError j e))
                    | none => ({ item with Filters := ItemFilters.mk conds' },
                          (none : Option ItemError))).2 =
                (match firstFailure tvCheck item.TemplateVars with
                 | some (j, e) => some (ItemError.tvError j e)
                 | none => none)
              rw [← validateTemplateVars_eq]
              cases hvt : validateTemplateVars item.TemplateVars with
              | some je => cases je with | mk j e => rfl
              | none => rfl

theorem validateMenuItem_fst_title (item : MenuItem) :
    (validateMenuItem item).1.Title = item.Title := by
  unfold validateMenuItem
  by_cases ht : item.Title = ""
  · simp [ht]
  · by_cases hu : item.URL = ""
    · simp [ht, hu]
    · simp only [ht, hu, if_false]
      cases hvc : validateConditions item.Filters.Conditions with
      | mk conds' eo =>
          cases eo with
          | some je => cases je with | mk j e => rfl
          | none =>
              cases hvt : validateTemplateVars item.TemplateVars with
              | some je => cases je with | mk j e => rfl
              | none => rfl

theorem validateMenuItems_snd (items : List MenuItem) :
    (validateMenuItems items).2 =
      firstFailure (fun item => (itemCheck item).map fun e => (item.Title, e)) items := by
  induction items with
  | nil => rfl
  | cons item rest ih =>
      unfold validateMenuItems firstFailure
      rw [← validateMenuItem_snd item]
      cases hvi : validateMenuItem item with
      | mk item' eo =>
          have htitle : item'.Title = item.Title := by
            rw [show item' = (validateMenuItem item).1 from by rw [hvi]]
            exact validateMenuItem_fst_title item
          cases eo with
          | some e =>
              show some (0, item'.Title, e) = some (0, item.Title, e)
              rw [htitle]
          | none =>
              show (match validateMenuItems rest with
                    | (rest', some (i, t, e)) => (item' :: rest', some (i + 1, t, e))
                    | (rest', none) => (item' :: rest', none)).2 =
                (firstFailure (fun item => (itemCheck item).map fun e => (item.Title, e))
                    rest).map fun je => (je.1 + 1, je.2)
              rw [← ih]
              cases hvr : validateMenuItems rest with
              | mk rest' eo2 =>
                  cases eo2 with
                  | some ite =>
                      obtain ⟨i, t, e⟩ := ite
                      rfl
                  | none => rfl

theorem firstFailure_eq_none {α β : Type} (f : α → Option β) (l : List α) :
    firstFailure f l = none ↔ ∀ a ∈ l, f a = none := by
  induction l with
  | nil => simp [firstFailure]
  | cons a rest ih =>
      unfold firstFailure
      cases hf : f a with
      | some e => simp [hf]
      | none => simp [hf, Option.map_eq_none', ih]

theorem condCheck_eq_none (c : Condition) :
    condCheck c = none ↔
      (c.Path ≠ "" ∧
        compileRegex (anchorPattern (if c.KeyPattern = "" then ".*" else c.KeyPattern)) ≠ none ∧
        compileRegex (anchorPattern (if c.ValuePattern = "" then ".*" else c.ValuePattern)) ≠ none) := by
  unfold condCheck
  by_cases hp : c.Path = ""
  · simp [hp]
  · by_cases h1 :
      compileRegex (anchorPattern (if c.KeyPattern = "" then ".*" else c.KeyPattern)) = none
    · simp [hp, h1]
    · by_cases h2 :
        compileRegex (anchorPattern (if c.ValuePattern = "" then ".*" else c.ValuePattern)) = none
      · simp [hp, h1, h2]
      · simp [hp, h1, h2]

theorem tvCheck_eq_none (tv : TemplateVar) :
    tvCheck tv = none ↔ (tv.Path ≠ "" ∧ tv.URLAppend ≠ "") := by
  unfold tvCheck
  by_cases h1 : tv.Path = ""
  · simp [h1]
  · by_cases h2 : tv.URLAppend = ""
    · simp [h1, h2]
    · simp [h1, h2]

theorem itemCheck_eq_none (item : MenuItem) :
    itemCheck item = none ↔
      (item.Title ≠ "" ∧ item.URL ≠ "" ∧
        (∀ c ∈ item.Filters.Conditions,
          c.Path ≠ "" ∧
          compileRegex (anchorPattern (if c.KeyPattern = "" then ".*" else c.KeyPattern)) ≠ none ∧
          compileRegex (anchorPattern (if c.ValuePattern = "" then ".*" else c.ValuePattern)) ≠ none) ∧
        (∀ tv ∈ item.TemplateVars, tv.Path ≠ "" ∧ tv.URLAppend ≠ "")) := by
  unfold itemCheck
  by_cases ht : item.Title = ""
  · simp [ht]
  · by_cases hu : item.URL = ""
    · simp [ht, hu]
    · simp only [ht, hu, if_false]
      cases hff : firstFailure condCheck item.Filters.Conditions with
      | some je =>
          obtain ⟨j, e⟩ := je
          constructor
          · intro h
            exact absurd h (by simp)
          · rintro ⟨-, -, hcs, -⟩
            exfalso
            have hn : firstFailure condCheck item.Filters.Conditions = none :=
              (firstFailure_eq_none _ _).mpr fun c hc =>
                (condCheck_eq_none c).mpr (hcs c hc)
            rw [hn] at hff
            cases hff
      | none =>
          cases hft : firstFailure tvCheck item.TemplateVars with
          | some je =>
              obtain ⟨j, e⟩ := je
              constructor
              · intro h
                exact absurd h (by simp)
              · rintro ⟨-, -, -, htvs⟩
                exfalso
                have hn : firstFailure tvCheck item.TemplateVars = none :=
                  (firstFailure_eq_none _ _).mpr fun tv htv =>
                    (tvCheck_eq_none tv).mpr (htvs tv htv)
                rw [hn] at hft
                cases hft
          | none =>
              constructor
              · intro _
                refine ⟨ht, hu, ?_, ?_⟩
                · intro c hc
                  exact (condCheck_eq_none c).mp
                    ((firstFailure_eq_none _ _).mp hff c hc)
                · intro tv htv
                  exact (tvCheck_eq_none tv).mp
                    ((firstFailure_eq_none _ _).mp hft tv htv)
              · intro _
                rfl

/-- C6: validation returns exactly the first failing check in the
claimed order — zero entries first, then per entry (in order) title,
URL, each condition in order (empty path, then key pattern compilation
after defaulting, then value pattern compilation), then each template
variable in order — and it returns no error precisely when every entry
passes all of these checks. -/
theorem c6_validate_first_error :
    ∀ cfg : Config,
      (ValidateConfig cfg).2 = firstErrorSpec cfg ∧
      ((ValidateConfig cfg).2 = none ↔ ValidConfig cfg) := by
  intro cfg
  have heq : (ValidateConfig cfg).2 = firstErrorSpec cfg := by
    unfold ValidateConfig firstErrorSpec
    cases hi : cfg.MenuItems.isEmpty with
    | true => rfl
    | false =>
        rw [if_neg (by simp), if_neg (by simp)]
        rw [← validateMenuItems_snd]
        cases hvm : validateMenuItems cfg.MenuItems with
        | mk items' eo =>
            cases eo with
            | some ite =>
                obtain ⟨i, t, e⟩ := ite
                rfl
            | none => rfl
  refine ⟨heq, ?_⟩
  rw [heq]
  unfold firstErrorSpec ValidConfig
  cases hi : cfg.MenuItems.isEmpty with
  | true =>
      rw [if_pos rfl]
      have : cfg.MenuItems = [] := by
        cases h : cfg.MenuItems with
        | nil => rfl
        | cons a l => rw [h] at hi; cases hi
      simp [this]
  | false =>
      rw [if_neg (by simp)]
      have hne : cfg.MenuItems ≠ [] := by
        intro h
        rw [h] at hi
        cases hi
      cases hff : firstFailure
          (fun item => (itemCheck item).map fun e => (item.Title, e)) cfg.MenuItems with
      | some ite =>
          obtain ⟨i, t, e⟩ := ite
          constructor
          · intro h
            exact absurd h (by simp)
          · rintro ⟨-, hall⟩
            exfalso
            have hn : firstFailure
                (fun item => (itemCheck item).map fun e => (item.Title, e))
                cfg.MenuItems = none :=
              (firstFailure_eq_none _ _).mpr fun item hm => by
                rw [Option.map_eq_none']
                exact (itemCheck_eq_none item).mpr (hall item hm)
            rw [hn] at hff
            cases hff
      | none =>
          constructor
          · intro _
            refine ⟨hne, fun item hm => ?_⟩
            have h1 := (firstFailure_eq_none _ _).mp hff item hm
            rw [Option.map_eq_none'] at h1
            exact (itemCheck_eq_none item).mp h1
          · intro _
            rfl

/-! ### Claim C10: validation's frame -/

theorem condFrame_refl (c : Condition) : CondFrame c c :=
  ⟨rfl, rfl, Or.inl rfl, Or.inl rfl, Or.inl rfl, Or.inl rfl⟩

theorem forall₂_condFrame_refl (cs : List Condition) : List.Forall₂ CondFrame cs cs := by
  induction cs with
  | nil => exact List.Forall₂.nil
  | cons c rest ih => exact List.Forall₂.cons (condFrame_refl c) ih

theorem itemFrame_refl (it : MenuItem) : ItemFrame it it :=
  ⟨rfl, rfl, rfl, rfl, forall₂_condFrame_refl _⟩

theorem forall₂_itemFrame_refl (items : List MenuItem) :
    List.Forall₂ ItemFrame items items := by
  induction items with
  | nil => exact List.Forall₂.nil
  | cons it rest ih => exact List.Forall₂.cons (itemFrame_refl it) ih

theorem validateCondition_frame (c : Condition) : CondFrame c (validateCondition c).1 := by
  unfold validateCondition
  by_cases hp : c.Path = ""
  · rw [if_pos hp]
    exact condFrame_refl c
  · rw [if_neg hp]
    by_cases hk : c.KeyPattern = "" <;> by_cases hv : c.ValuePattern = "" <;>
      simp only [hk, hv, if_true, if_false, if_pos, reduceIte] <;>
      split <;> (try split) <;>
      simp_all [CondFrame]

theorem validateConditions_frame (cs : List Condition) :
    List.Forall₂ CondFrame cs (validateConditions cs).1 := by
  induction cs with
  | nil => exact List.Forall₂.nil
  | cons c rest ih =>
      unfold validateConditions
      cases hvc : validateCondition c with
      | mk c' eo =>
          have hcf : CondFrame c c' := by
            have h := validateCondition_frame c
            rw [hvc] at h
            exact h
          cases eo with
          | some e => exact List.Forall₂.cons hcf (forall₂_condFrame_refl rest)
          | none =>
              cases hvr : validateConditions rest with
              | mk rest' eo2 =>
                  have hihr : List.Forall₂ CondFrame rest rest' := by
                    rw [hvr] at ih
                    exact ih
                  cases eo2 with
                  | some je =>
                      obtain ⟨j, e⟩ := je
                      exact List.Forall₂.cons hcf hihr
                  | none => exact List.Forall₂.cons hcf hihr

theorem validateMenuItem_frame (item : MenuItem) :
    ItemFrame item (validateMenuItem item).1 := by
  unfold validateMenuItem
  by_cases ht : item.Title = ""
  · rw [if_pos ht]
    exact itemFrame_refl item
  · rw [if_neg ht]
    by_cases hu : item.URL = ""
    · rw [if_pos hu]
      exact itemFrame_refl item
    · rw [if_neg hu]
      cases hvc : validateConditions item.Filters.Conditions with
      | mk conds' eo =>
          have hf2 : List.Forall₂ CondFrame item.Filters.Conditions conds' := by
            have h := validateConditions_frame item.Filters.Conditions
            rw [hvc] at h
            exact h
          cases eo with
          | some je =>
              obtain ⟨j, e⟩ := je
              exact ⟨rfl, rfl, rfl, rfl, hf2⟩
          | none =>
              cases hvt : validateTemplateVars item.TemplateVars with
              | some je =>
                  obtain ⟨j, e⟩ := je
                  exact ⟨rfl, rfl, rfl, rfl, hf2⟩
              | none => exact ⟨rfl, rfl, rfl, rfl, hf2⟩

theorem validateMenuItems_frame (items : List MenuItem) :
    List.Forall₂ ItemFrame items (validateMenuItems items).1 := by
  induction items with
  | nil => exact List.Forall₂.nil
  | cons item rest ih =>
      unfold validateMenuItems
      cases hvi : validateMenuItem item with
      | mk item' eo =>
          have hif : ItemFrame item item' := by
            have h := validateMenuItem_frame item
            rw [hvi] at h
            exact h
          cases eo with
          | some e => exact List.Forall₂.cons hif (forall₂_itemFrame_refl rest)
          | none =>
              cases hvr : validateMenuItems rest with
              | mk rest' eo2 =>
                  have hihr : List.Forall₂ ItemFrame rest rest' := by
                    rw [hvr] at ih
                    exact ih
                  cases eo2 with
                  | some ite =>
                      obtain ⟨i, t, e⟩ := ite
                      exact List.Forall₂.cons hif hihr
                  | none => exact List.Forall₂.cons hif hihr

/-- C10: validation only touches the conditions' pattern state —
defaulting empty pattern sources to `.*` and storing compiled anchored
regexes — and leaves every other field, and the number and order of
entries, unchanged; this holds whether validation succeeds or stops at
an error (entries already processed keep their defaults and compiled
patterns, later ones are untouched). -/
theorem c10_validate_frame :
    ∀ cfg : Config,
      List.Forall₂ ItemFrame cfg.MenuItems (ValidateConfig cfg).1.MenuItems := by
  intro cfg
  unfold ValidateConfig
  cases hi : cfg.MenuItems.isEmpty with
  | true => exact forall₂_itemFrame_refl _
  | false =>
      cases hvm : validateMenuItems cfg.MenuItems with
      | mk items' eo =>
          have hfr : List.Forall₂ ItemFrame cfg.MenuItems items' := by
            have h := validateMenuItems_frame cfg.MenuItems
            rw [hvm] at h
            exact h
          cases eo with
          | some ite =>
              obtain ⟨i, t, e⟩ := ite
              exact hfr
          | none => exact hfr
